import Mathlib

/-!
Shallow embedding of the asset cache and lifecycle manager of this
repository (the `ResourceManager` and `LODManager` classes in
`src/constants.ts`, plus the module-level texture cache of
`src/components/Scene.tsx`).

Modelling conventions:

* JavaScript `Map<string, V>` becomes an association list
  `List (String × V)`; `Map.set` replaces in place (keeping insertion
  order) or appends, `Map.delete` removes, `Map.get`/`has` is `lookupA`.
* A THREE texture / GLTF model object becomes a numeric `Handle`
  (`Nat`); each completed decode allocates a fresh handle from a
  counter, matching the fact that every `loader.load` / `useGLTF`
  completion produces a fresh object.
* `texture.dispose()` is recorded by appending the handle to a
  `disposed` event list, so "disposed exactly once" is countable.
* `Date.now()` is an explicit `now : Nat` field of the state.
* The async `getTexture` (`src/constants.ts` lines 70-116) is split at
  its `await` point into `texBegin` (the synchronous prefix: cache
  check, and on a miss the start of the decode via `loader.load`) and
  `texFinish` (the continuation run when the load settles: on success
  install into the cache and track, on failure catch and return null).
  Likewise `getModel` (lines 119-141) splits into `modelBegin` /
  `modelFinish`.  Interleavings of the JS event loop are sequences of
  these steps.
* Decode success/failure is an oracle `ok : String → Bool` on the url.
-/

/-- Association-list lookup, the model of `Map.get` / `Map.has`. -/
def lookupA {κ α : Type} [DecidableEq κ] (k : κ) : List (κ × α) → Option α
  | [] => none
  | (k₁, v) :: rest => if k = k₁ then some v else lookupA k rest

/-- Association-list insertion, the model of `Map.set`: replaces the
binding in place if the key is present, else appends. -/
def insertA {κ α : Type} [DecidableEq κ] (k : κ) (v : α) :
    List (κ × α) → List (κ × α)
  | [] => [(k, v)]
  | (k₁, v₁) :: rest =>
      if k = k₁ then (k, v) :: rest else (k₁, v₁) :: insertA k v rest

/-- Association-list deletion, the model of `Map.delete` (a no-op on an
absent key, like `Map.delete`). -/
def eraseA {κ α : Type} [DecidableEq κ] (k : κ) (m : List (κ × α)) :
    List (κ × α) :=
  m.filter (fun p => decide (p.1 ≠ k))

theorem lookupA_insertA_self {κ α : Type} [DecidableEq κ] (k : κ) (v : α)
    (m : List (κ × α)) : lookupA k (insertA k v m) = some v := by
  induction m with
  | nil => simp [insertA, lookupA]
  | cons p rest ih =>
      by_cases h : k = p.1
      · simp [insertA, h, lookupA]
      · simpa [insertA, h, lookupA] using ih

theorem lookupA_insertA_ne {κ α : Type} [DecidableEq κ] {k k₁ : κ} (v : α)
    (m : List (κ × α)) (h : k ≠ k₁) :
    lookupA k (insertA k₁ v m) = lookupA k m := by
  induction m with
  | nil => simp [insertA, lookupA, h]
  | cons p rest ih =>
      by_cases h₁ : k₁ = p.1
      · subst h₁; simp [insertA, lookupA, h]
      · by_cases h₂ : k = p.1
        · simp [insertA, h₁, lookupA, h₂]
        · simpa [insertA, h₁, lookupA, h₂] using ih

theorem lookupA_eraseA_self {κ α : Type} [DecidableEq κ] (k : κ)
    (m : List (κ × α)) : lookupA k (eraseA k m) = none := by
  induction m with
  | nil => simp [eraseA, lookupA]
  | cons p rest ih =>
      by_cases h : p.1 = k
      · simpa [eraseA, h] using ih
      · have h₂ : k ≠ p.1 := fun hh => h hh.symm
        simpa [eraseA, h, lookupA, h₂] using ih

theorem lookupA_eraseA_ne {κ α : Type} [DecidableEq κ] {k k₁ : κ}
    (m : List (κ × α)) (h : k ≠ k₁) :
    lookupA k (eraseA k₁ m) = lookupA k m := by
  induction m with
  | nil => simp [eraseA, lookupA]
  | cons p rest ih =>
      by_cases h₁ : p.1 = k₁
      · have h₂ : k ≠ p.1 := fun hh => h (hh.trans h₁)
        simpa [eraseA, h₁, lookupA, h₂, h] using ih
      · by_cases h₂ : k = p.1
        · simp [eraseA, h₁, lookupA, h₂]
        · simpa [eraseA, h₁, lookupA, h₂] using ih

theorem lookupA_mem {κ α : Type} [DecidableEq κ] {k : κ} {v : α}
    {m : List (κ × α)} (h : lookupA k m = some v) : (k, v) ∈ m := by
  induction m with
  | nil => simp [lookupA] at h
  | cons p rest ih =>
      by_cases h₁ : k = p.1
      · subst h₁
        simp [lookupA] at h
        subst h
        exact List.mem_cons_self _ _
      · simp [lookupA, h₁] at h
        exact List.mem_cons_of_mem _ (ih h)

theorem lookupA_eq_of_mem_nodup {κ α : Type} [DecidableEq κ] {k : κ}
    {v : α} {m : List (κ × α)} (hn : (m.map Prod.fst).Nodup)
    (hm : (k, v) ∈ m) : lookupA k m = some v := by
  induction m with
  | nil => simp at hm
  | cons p rest ih =>
      simp only [List.map_cons, List.nodup_cons] at hn
      rcases List.mem_cons.mp hm with h | h
      · subst h; simp [lookupA]
      · have hk : k ≠ p.1 := by
          intro hk
          exact hn.1 (hk ▸ (List.mem_map.mpr ⟨(k, v), h, rfl⟩))
        simp only [lookupA, hk, if_false]
        exact ih hn.2 h

theorem eraseA_of_not_mem {κ α : Type} [DecidableEq κ] {k : κ}
    {m : List (κ × α)} (h : k ∉ m.map Prod.fst) : eraseA k m = m := by
  induction m with
  | nil => rfl
  | cons p rest ih =>
      simp only [List.map_cons, List.mem_cons, not_or] at h
      have h₁ : p.1 ≠ k := fun hh => h.1 hh.symm
      have h₂ := ih h.2
      simp only [eraseA] at h₂
      have h₃ : (decide (p.1 ≠ k)) = true := by simp [h₁]
      show List.filter (fun q => decide (q.1 ≠ k)) (p :: rest) = p :: rest
      rw [List.filter_cons, h₃]
      simp only [if_true]
      exact congrArg (List.cons p) h₂

/-- The `type` tag of the `ResourceUsage` interface in
`src/constants.ts` (line 51): the string tags texture, geometry,
material and model. -/
inductive RType : Type
  | texture
  | geometry
  | material
  | model
deriving DecidableEq, Repr

/-- The `interface ResourceUsage` record (src/constants.ts lines 48-52). -/
structure ResourceUsage : Type where
  lastUsed : Nat
  referenceCount : Nat
  type : RType
deriving DecidableEq, Repr

/-- A decoded native resource (THREE texture or GLTF model object),
identified by the order in which it was created. -/
abbrev Handle := Nat

/-- The mutable state of the global `ResourceManager` instance
(src/constants.ts lines 55-240), together with the bookkeeping needed
to observe its behaviour: in-flight loads, the log of started decodes,
the log of `dispose()` calls, and the current clock. -/
structure RMState : Type where
  textureCache : List (String × Handle)
  modelCache : List (String × Handle)
  usageTracker : List (String × ResourceUsage)
  pendingT : List (Nat × String)
  pendingM : List (Nat × String)
  nextHandle : Nat
  decodeLog : List String
  disposed : List Handle
  now : Nat
deriving DecidableEq, Repr

/-- The freshly constructed manager: all maps empty. -/
def RMState.init : RMState :=
  ⟨[], [], [], [], [], 0, [], [], 0⟩

/-- The `TEXTURE_CLEANUP_THRESHOLD` constant (src/constants.ts line 62). -/
def TEXTURE_CLEANUP_THRESHOLD : Nat := 30000

/-- The `MODEL_CLEANUP_THRESHOLD` constant (src/constants.ts line 63). -/
def MODEL_CLEANUP_THRESHOLD : Nat := 60000

/-- Threshold selection in `cleanupUnusedResources` (lines 177-179):
`usage.type === texture ? TEXTURE_... : MODEL_...`. -/
def thresholdFor (t : RType) : Nat :=
  if t = RType.texture then TEXTURE_CLEANUP_THRESHOLD
  else MODEL_CLEANUP_THRESHOLD

/-- Model of `trackResource` (src/constants.ts lines 208-214): installs a usage
record with `lastUsed = Date.now()` and `referenceCount = 1`. -/
def trackResource (key : String) (t : RType) (s : RMState) : RMState :=
  { s with usageTracker :=
      insertA key ⟨s.now, 1, t⟩ s.usageTracker }

/-- Model of `updateUsage` (src/constants.ts lines 216-224): refreshes
`lastUsed` and increments `referenceCount` of an existing record,
falling back to `trackResource` when the key is untracked. -/
def updateUsage (key : String) (t : RType) (s : RMState) : RMState :=
  match lookupA key s.usageTracker with
  | some u =>
      { s with usageTracker :=
          insertA key ⟨s.now, u.referenceCount + 1, u.type⟩ s.usageTracker }
  | none => trackResource key t s

/-- Model of `releaseResource` (src/constants.ts lines 154-169): disposes the
cached texture if the key holds one, then deletes the key from the
texture cache, the model cache and the usage tracker.  (`Map.delete`
on an absent key is a no-op, so deleting unconditionally is
extensionally the conditional delete of the code.) -/
def releaseResource (key : String) (s : RMState) : RMState :=
  { s with
    disposed :=
      match lookupA key s.textureCache with
      | some h => s.disposed ++ [h]
      | none => s.disposed
    textureCache := eraseA key s.textureCache
    modelCache := eraseA key s.modelCache
    usageTracker := eraseA key s.usageTracker }

/-- The eviction test of `cleanupUnusedResources` (line 181):
`now - usage.lastUsed > threshold && usage.referenceCount === 0`. -/
def isStale (now : Nat) (u : ResourceUsage) : Bool :=
  decide (thresholdFor u.type < now - u.lastUsed) &&
  decide (u.referenceCount = 0)

/-- The scan phase of `cleanupUnusedResources` (lines 176-184): the
keys whose idle time exceeds the threshold of their kind and whose
reference count is zero. -/
def staleKeys (s : RMState) : List String :=
  (s.usageTracker.filter (fun p => isStale s.now p.2)).map Prod.fst

/-- The removal phase of `cleanupUnusedResources` (lines 186-189):
`toRemove.forEach(key => this.releaseResource(key))`. -/
def sweepRemove (keys : List String) (s : RMState) : RMState :=
  keys.foldl (fun acc k => releaseResource k acc) s

/-- Model of `cleanupUnusedResources` (src/constants.ts lines 172-190):
two-phase scan-then-remove sweep. -/
def cleanupUnusedResources (s : RMState) : RMState :=
  sweepRemove (staleKeys s) s

/-- Model of `clearAll` (src/constants.ts lines 193-205): disposes every cached
texture, clears both caches and the tracker.  Models are only removed
(`modelCache.clear()`), never disposed. -/
def clearAll (s : RMState) : RMState :=
  { s with
    disposed := s.disposed ++ s.textureCache.map Prod.snd
    textureCache := []
    modelCache := []
    usageTracker := [] }

/-- The synchronous prefix of `getTexture` (src/constants.ts lines
70-83 plus the start of the load at line 87): on a cache hit, update
usage and return the cached texture; on a miss, start the decode
(`loader.load`) and suspend this caller.  The returned `Option`
distinguishes an immediate result (`some`) from suspension (`none`). -/
def texBegin (caller : Nat) (key : String) (s : RMState) :
    RMState × Option Handle ⊕ RMState :=
  match lookupA key s.textureCache with
  | some h => Sum.inl (updateUsage key RType.texture s, some h)
  | none =>
      Sum.inr { s with
        pendingT := s.pendingT ++ [(caller, key)]
        decodeLog := s.decodeLog ++ [key] }

/-- The continuation of `getTexture` after its `await` (src/constants.ts
lines 100-115): on load success, install the fresh texture in the cache
and track it (lines 108-109) and return it; on load failure, the
`catch` returns `null` and installs nothing (lines 112-115). -/
def texFinish (caller : Nat) (ok : String → Bool) (s : RMState) :
    RMState × Option Handle :=
  match lookupA caller s.pendingT with
  | none => (s, none)
  | some key =>
      let s₀ := { s with pendingT := eraseA caller s.pendingT }
      if ok key then
        let h := s₀.nextHandle
        let s₁ := { s₀ with
          nextHandle := h + 1
          textureCache := insertA key h s₀.textureCache }
        (trackResource key RType.texture s₁, some h)
      else (s₀, none)

/-- Model of `getTexture` run without interference: `texBegin` immediately
followed by the `texFinish` of the same caller. -/
def getTexture (caller : Nat) (key : String) (ok : String → Bool)
    (s : RMState) : RMState × Option Handle :=
  match texBegin caller key s with
  | Sum.inl r => r
  | Sum.inr s₁ => texFinish caller ok s₁

/-- The synchronous prefix of `getModel` (src/constants.ts lines
119-125 with the start of the dynamic import at line 128): cache hit
updates usage and returns the model, cache miss starts the load and
suspends. -/
def modelBegin (caller : Nat) (url : String) (s : RMState) :
    RMState × Option Handle ⊕ RMState :=
  match lookupA url s.modelCache with
  | some h => Sum.inl (updateUsage url RType.model s, some h)
  | none =>
      Sum.inr { s with
        pendingM := s.pendingM ++ [(caller, url)]
        decodeLog := s.decodeLog ++ [url] }

/-- The continuation of `getModel` (src/constants.ts lines 131-140):
on success, cache the model and track it; on failure, the `catch`
returns `null` and installs nothing. -/
def modelFinish (caller : Nat) (ok : String → Bool) (s : RMState) :
    RMState × Option Handle :=
  match lookupA caller s.pendingM with
  | none => (s, none)
  | some url =>
      let s₀ := { s with pendingM := eraseA caller s.pendingM }
      if ok url then
        let h := s₀.nextHandle
        let s₁ := { s₀ with
          nextHandle := h + 1
          modelCache := insertA url h s₀.modelCache }
        (trackResource url RType.model s₁, some h)
      else (s₀, none)

/-- Model of `getModel` run without interference. -/
def getModel (caller : Nat) (url : String) (ok : String → Bool)
    (s : RMState) : RMState × Option Handle :=
  match modelBegin caller url s with
  | Sum.inl r => r
  | Sum.inr s₁ => modelFinish caller ok s₁

/-- The begin phase of `preloadTextures` (src/constants.ts lines
144-146): `urls.map(url => this.getTexture(url))` starts every load in
order before any completion runs (an `async` body runs synchronously
up to its first `await`, and the `Promise` executor that calls
`loader.load` runs inside that prefix).  Each element records either
the immediate cache-hit result or the suspended caller id. -/
def preloadBegins : List (Nat × String) → RMState →
    RMState × List (Option Handle ⊕ Nat)
  | [], s => (s, [])
  | (c, u) :: rest, s =>
      match texBegin c u s with
      | Sum.inl (s₁, r) =>
          let (s₂, rs) := preloadBegins rest s₁
          (s₂, Sum.inl r :: rs)
      | Sum.inr s₁ =>
          let (s₂, rs) := preloadBegins rest s₁
          (s₂, Sum.inr c :: rs)

/-- The completion phase of `preloadTextures`: each suspended load
settles (in order), running its `texFinish` continuation;
`Promise.all` then assembles the results positionally. -/
def preloadFinishes (ok : String → Bool) :
    List (Option Handle ⊕ Nat) → RMState → RMState × List (Option Handle)
  | [], s => (s, [])
  | Sum.inl r :: rest, s =>
      let (s₂, rs) := preloadFinishes ok rest s
      (s₂, r :: rs)
  | Sum.inr c :: rest, s =>
      let (s₁, r) := texFinish c ok s
      let (s₂, rs) := preloadFinishes ok rest s₁
      (s₂, r :: rs)

/-- Model of `preloadTextures` (src/constants.ts lines 144-146):
`Promise.all(urls.map(url => this.getTexture(url)))`, with caller ids
taken from list positions. -/
def preloadTextures (ok : String → Bool) (urls : List String)
    (s : RMState) : RMState × List (Option Handle) :=
  let (s₁, items) := preloadBegins urls.enum s
  preloadFinishes ok items s₁

/-- The `distances.join(dash)` part of the LOD cache key. -/
def joinDashes : List Nat → String
  | [] => ""
  | [d] => toString d
  | d :: rest => toString d ++ "-" ++ joinDashes rest

/-- The LOD cache key `modelUrl-distances`, dash-joined
(src/constants.ts line 270). -/
def lodKey (modelUrl : String) (distances : List Nat) : String :=
  modelUrl ++ "-" ++ joinDashes distances

/-- The state of the global `LODManager` instance (src/constants.ts
lines 266-306): for each LOD key, the list of distances at which a
level has been added to the `THREE.LOD` object (`addLevel` at lines
283 and 290; the full model sits at distance 0). -/
structure LODState : Type where
  lods : List (String × List Nat)
deriving DecidableEq, Repr

def LODState.init : LODState := ⟨[]⟩

/-- The `.then` callback inside `createLOD` (src/constants.ts lines
280-293), run when the base model load settles: when a model with a
scene arrived, add the full model at distance 0 and one simplified
clone per requested distance; when the load failed (`getModel`
returned `null`), the `model?.scene` guard skips everything and the
LOD object keeps zero levels. -/
def lodOnModelLoaded (key : String) (distances : List Nat)
    (model : Option Handle) (ls : LODState) : LODState :=
  match model with
  | some _ => ⟨insertA key (0 :: distances) ls.lods⟩
  | none => ls

/-- Model of `createLOD` (src/constants.ts lines 269-301) followed by the
settlement of the base-model load it starts.  The synchronous part
returns the cached LOD if the key is present; otherwise it creates an
empty LOD object, fires `resourceManager.getModel(modelUrl).then(...)`
without awaiting it, installs the empty LOD in the map and returns it.
The result is the final manager and LOD states plus the key of the
LOD object the caller received (`createLOD` never returns `null`:
nothing in its `try` block throws, and the promise rejection is not
caught by it). -/
def createLOD (caller : Nat) (modelUrl : String) (distances : List Nat)
    (ok : String → Bool) (s : RMState) (ls : LODState) :
    RMState × LODState × String :=
  let key := lodKey modelUrl distances
  match lookupA key ls.lods with
  | some _ => (s, ls, key)
  | none =>
      let ls₁ : LODState := ⟨insertA key [] ls.lods⟩
      let (s₁, model) := getModel caller modelUrl ok s
      (s₁, lodOnModelLoaded key distances model ls₁, key)

/-- The operations a client of the global `resourceManager` can
perform, each one atomic on the JS event loop: the synchronous prefix
of a load, the continuation of a settled load, explicit release, the
periodic sweep, `clearAll`, and the passage of time. -/
inductive Op : Type
  | texBeginOp (caller : Nat) (key : String)
  | texFinishOp (caller : Nat)
  | modelBeginOp (caller : Nat) (url : String)
  | modelFinishOp (caller : Nat)
  | releaseOp (key : String)
  | cleanupOp
  | clearAllOp
  | tick (dt : Nat)

/-- The state transition of one operation (return values dropped). -/
def Op.step (ok : String → Bool) : Op → RMState → RMState
  | texBeginOp c k, s =>
      match texBegin c k s with
      | Sum.inl (s₁, _) => s₁
      | Sum.inr s₁ => s₁
  | texFinishOp c, s => (texFinish c ok s).1
  | modelBeginOp c u, s =>
      match modelBegin c u s with
      | Sum.inl (s₁, _) => s₁
      | Sum.inr s₁ => s₁
  | modelFinishOp c, s => (modelFinish c ok s).1
  | releaseOp k, s => releaseResource k s
  | cleanupOp, s => cleanupUnusedResources s
  | clearAllOp, s => clearAll s
  | tick dt, s => { s with now := s.now + dt }

/-- The states the global `resourceManager` can reach from
construction under an arbitrary schedule of client operations. -/
inductive Reachable (ok : String → Bool) : RMState → Prop
  | init : Reachable ok RMState.init
  | step (op : Op) {s : RMState} :
      Reachable ok s → Reachable ok (op.step ok s)

theorem mem_insertA {κ α : Type} [DecidableEq κ] {p : κ × α} {k : κ}
    {v : α} : ∀ {m : List (κ × α)}, p ∈ insertA k v m → p = (k, v) ∨ p ∈ m
  | [], h => by simpa [insertA] using h
  | (k₁, v₁) :: rest, h => by
      by_cases hk : k = k₁
      · simp only [insertA, hk, if_pos rfl] at h
        rcases List.mem_cons.mp h with h | h
        · exact Or.inl (by simpa [hk] using h)
        · exact Or.inr (List.mem_cons_of_mem _ h)
      · simp only [insertA, hk, if_false] at h
        rcases List.mem_cons.mp h with h | h
        · exact Or.inr (h ▸ List.mem_cons_self _ _)
        · rcases mem_insertA h with h | h
          · exact Or.inl h
          · exact Or.inr (List.mem_cons_of_mem _ h)

theorem mem_of_mem_eraseA {κ α : Type} [DecidableEq κ] {p : κ × α}
    {k : κ} {m : List (κ × α)} (h : p ∈ eraseA k m) : p ∈ m :=
  (List.mem_filter.mp h).1

theorem releaseResource_usageTracker (key : String) (s : RMState) :
    (releaseResource key s).usageTracker = eraseA key s.usageTracker := rfl

theorem releaseResource_textureCache (key : String) (s : RMState) :
    (releaseResource key s).textureCache = eraseA key s.textureCache := rfl

theorem releaseResource_modelCache (key : String) (s : RMState) :
    (releaseResource key s).modelCache = eraseA key s.modelCache := rfl

theorem sweepRemove_nil (s : RMState) : sweepRemove [] s = s := rfl

theorem sweepRemove_cons (k : String) (l : List String) (s : RMState) :
    sweepRemove (k :: l) s = sweepRemove l (releaseResource k s) := rfl

theorem sweepRemove_usageTracker_lookup (l : List String) :
    ∀ (s : RMState) (k : String),
    lookupA k (sweepRemove l s).usageTracker =
      if k ∈ l then none else lookupA k s.usageTracker := by
  induction l with
  | nil => intro s k; simp [sweepRemove_nil]
  | cons k₁ l ih =>
      intro s k
      rw [sweepRemove_cons, ih]
      by_cases hl : k ∈ l
      · simp [hl]
      · by_cases hk : k = k₁
        · subst hk
          simp [hl, releaseResource_usageTracker, lookupA_eraseA_self]
        · simp [hl, hk, releaseResource_usageTracker, lookupA_eraseA_ne _ hk]

theorem sweepRemove_textureCache_lookup (l : List String) :
    ∀ (s : RMState) (k : String),
    lookupA k (sweepRemove l s).textureCache =
      if k ∈ l then none else lookupA k s.textureCache := by
  induction l with
  | nil => intro s k; simp [sweepRemove_nil]
  | cons k₁ l ih =>
      intro s k
      rw [sweepRemove_cons, ih]
      by_cases hl : k ∈ l
      · simp [hl]
      · by_cases hk : k = k₁
        · subst hk
          simp [hl, releaseResource_textureCache, lookupA_eraseA_self]
        · simp [hl, hk, releaseResource_textureCache, lookupA_eraseA_ne _ hk]

theorem sweepRemove_modelCache_lookup (l : List String) :
    ∀ (s : RMState) (k : String),
    lookupA k (sweepRemove l s).modelCache =
      if k ∈ l then none else lookupA k s.modelCache := by
  induction l with
  | nil => intro s k; simp [sweepRemove_nil]
  | cons k₁ l ih =>
      intro s k
      rw [sweepRemove_cons, ih]
      by_cases hl : k ∈ l
      · simp [hl]
      · by_cases hk : k = k₁
        · subst hk
          simp [hl, releaseResource_modelCache, lookupA_eraseA_self]
        · simp [hl, hk, releaseResource_modelCache, lookupA_eraseA_ne _ hk]

theorem sweepRemove_disposed (l : List String) :
    ∀ (s : RMState), l.Nodup →
    (sweepRemove l s).disposed =
      s.disposed ++ l.filterMap (fun k => lookupA k s.textureCache) := by
  induction l with
  | nil => intro s _; simp [sweepRemove_nil]
  | cons k₁ l ih =>
      intro s hnd
      rw [sweepRemove_cons, ih _ (List.nodup_cons.mp hnd).2]
      have hk₁ : k₁ ∉ l := (List.nodup_cons.mp hnd).1
      have hcongr :
          l.filterMap (fun k => lookupA k (releaseResource k₁ s).textureCache)
            = l.filterMap (fun k => lookupA k s.textureCache) := by
        apply List.filterMap_congr
        intro k hk
        have hne : k ≠ k₁ := fun h => hk₁ (h ▸ hk)
        rw [releaseResource_textureCache, lookupA_eraseA_ne _ hne]
      rw [hcongr]
      cases hc : lookupA k₁ s.textureCache with
      | none =>
          simp [releaseResource, hc, List.filterMap_cons]
      | some h =>
          simp [releaseResource, hc, List.filterMap_cons]

theorem mem_staleKeys {s : RMState} {k : String} {u : ResourceUsage}
    (ht : lookupA k s.usageTracker = some u)
    (hs : isStale s.now u = true) : k ∈ staleKeys s :=
  List.mem_map.mpr ⟨(k, u), List.mem_filter.mpr ⟨lookupA_mem ht, hs⟩, rfl⟩

theorem not_mem_staleKeys {s : RMState} {k : String} {u : ResourceUsage}
    (hn : (s.usageTracker.map Prod.fst).Nodup)
    (ht : lookupA k s.usageTracker = some u)
    (hs : isStale s.now u = false) : k ∉ staleKeys s := by
  intro hmem
  obtain ⟨p, hp, hpk⟩ := List.mem_map.mp hmem
  have hp₁ := List.mem_filter.mp hp
  have hmem₂ : (k, p.2) ∈ s.usageTracker := by
    have : p = (k, p.2) := by
      rw [← hpk]
    exact this ▸ hp₁.1
  have := lookupA_eq_of_mem_nodup hn hmem₂
  rw [ht] at this
  injection this with hu
  rw [← hu] at hp₁
  rw [hp₁.2] at hs
  exact Bool.noConfusion hs

theorem staleKeys_nodup {s : RMState}
    (hn : (s.usageTracker.map Prod.fst).Nodup) : (staleKeys s).Nodup :=
  hn.sublist ((List.filter_sublist s.usageTracker).map Prod.fst)

theorem cleanup_usageTracker_lookup (s : RMState) (k : String) :
    lookupA k (cleanupUnusedResources s).usageTracker =
      if k ∈ staleKeys s then none else lookupA k s.usageTracker :=
  sweepRemove_usageTracker_lookup (staleKeys s) s k

theorem cleanup_textureCache_lookup (s : RMState) (k : String) :
    lookupA k (cleanupUnusedResources s).textureCache =
      if k ∈ staleKeys s then none else lookupA k s.textureCache :=
  sweepRemove_textureCache_lookup (staleKeys s) s k

theorem cleanup_modelCache_lookup (s : RMState) (k : String) :
    lookupA k (cleanupUnusedResources s).modelCache =
      if k ∈ staleKeys s then none else lookupA k s.modelCache :=
  sweepRemove_modelCache_lookup (staleKeys s) s k

theorem cleanup_disposed (s : RMState)
    (hn : (s.usageTracker.map Prod.fst).Nodup) :
    (cleanupUnusedResources s).disposed =
      s.disposed ++
        (staleKeys s).filterMap (fun k => lookupA k s.textureCache) :=
  sweepRemove_disposed (staleKeys s) s (staleKeys_nodup hn)

theorem updateUsage_eq_some (k : String) (t : RType) (s : RMState)
    (u : ResourceUsage) (h : lookupA k s.usageTracker = some u) :
    updateUsage k t s =
      { s with usageTracker :=
          insertA k ⟨s.now, u.referenceCount + 1, u.type⟩ s.usageTracker } := by
  simp [updateUsage, h]

theorem texBegin_hit (c : Nat) (k : String) (s : RMState) (h : Handle)
    (hc : lookupA k s.textureCache = some h) :
    texBegin c k s = Sum.inl (updateUsage k RType.texture s, some h) := by
  simp [texBegin, hc]

theorem texBegin_miss (c : Nat) (k : String) (s : RMState)
    (hc : lookupA k s.textureCache = none) :
    texBegin c k s = Sum.inr { s with
      pendingT := s.pendingT ++ [(c, k)]
      decodeLog := s.decodeLog ++ [k] } := by
  simp [texBegin, hc]

theorem texFinish_eq (c : Nat) (ok : String → Bool) (s : RMState)
    (k : String) (hp : lookupA c s.pendingT = some k) :
    texFinish c ok s =
      if ok k then
        (trackResource k RType.texture
          { s with
            pendingT := eraseA c s.pendingT
            nextHandle := s.nextHandle + 1
            textureCache := insertA k s.nextHandle s.textureCache },
         some s.nextHandle)
      else ({ s with pendingT := eraseA c s.pendingT }, none) := by
  simp only [texFinish, hp]

theorem modelBegin_hit (c : Nat) (u : String) (s : RMState) (h : Handle)
    (hc : lookupA u s.modelCache = some h) :
    modelBegin c u s = Sum.inl (updateUsage u RType.model s, some h) := by
  simp [modelBegin, hc]

theorem modelBegin_miss (c : Nat) (u : String) (s : RMState)
    (hc : lookupA u s.modelCache = none) :
    modelBegin c u s = Sum.inr { s with
      pendingM := s.pendingM ++ [(c, u)]
      decodeLog := s.decodeLog ++ [u] } := by
  simp [modelBegin, hc]

theorem modelFinish_eq (c : Nat) (ok : String → Bool) (s : RMState)
    (u : String) (hp : lookupA c s.pendingM = some u) :
    modelFinish c ok s =
      if ok u then
        (trackResource u RType.model
          { s with
            pendingM := eraseA c s.pendingM
            nextHandle := s.nextHandle + 1
            modelCache := insertA u s.nextHandle s.modelCache },
         some s.nextHandle)
      else ({ s with pendingM := eraseA c s.pendingM }, none) := by
  simp only [modelFinish, hp]

theorem preloadBegins_fresh :
    ∀ (ps : List (Nat × String)) (s : RMState),
    (∀ p ∈ ps, lookupA p.2 s.textureCache = none) →
    preloadBegins ps s =
      ({ s with
          pendingT := s.pendingT ++ ps
          decodeLog := s.decodeLog ++ ps.map Prod.snd },
       ps.map (fun p => Sum.inr p.1)) := by
  intro ps
  induction ps with
  | nil =>
      intro s _
      simp [preloadBegins]
  | cons p rest ih =>
      intro s hf
      obtain ⟨c, u⟩ := p
      have hp : lookupA u s.textureCache = none :=
        hf (c, u) (List.mem_cons_self _ _)
      have hrest : ∀ q ∈ rest,
          lookupA q.2
            ({ s with
                pendingT := s.pendingT ++ [(c, u)]
                decodeLog := s.decodeLog ++ [u] } : RMState).textureCache
            = none :=
        fun q hq => hf q (List.mem_cons_of_mem _ hq)
      simp only [preloadBegins, texBegin_miss c u s hp, ih _ hrest,
        List.map_cons, List.append_assoc, List.singleton_append,
        List.cons_append, Prod.mk.injEq, List.nil_append]

theorem preloadFinishes_spec (ok : String → Bool) :
    ∀ (ps : List (Nat × String)) (s : RMState),
    (ps.map Prod.fst).Nodup →
    (ps.map Prod.snd).Nodup →
    s.pendingT = ps →
    (∀ p ∈ ps, lookupA p.2 s.textureCache = none) →
    (∀ k, k ∉ ps.map Prod.snd →
      lookupA k
        (preloadFinishes ok (ps.map (fun q => Sum.inr q.1)) s).1.textureCache
        = lookupA k s.textureCache) ∧
    List.Forall₂
      (fun (p : Nat × String) (r : Option Handle) =>
        r.isSome = ok p.2 ∧
        ∀ h, r = some h →
          lookupA p.2
            (preloadFinishes ok (ps.map (fun q => Sum.inr q.1)) s).1.textureCache
            = some h)
      ps (preloadFinishes ok (ps.map (fun q => Sum.inr q.1)) s).2 := by
  intro ps
  induction ps with
  | nil =>
      intro s _ _ _ _
      exact ⟨fun k _ => rfl, List.Forall₂.nil⟩
  | cons p rest ih =>
      intro s hcn hun hpend hf
      obtain ⟨c, u⟩ := p
      simp only [List.map_cons, List.nodup_cons] at hcn hun
      have hc : lookupA c s.pendingT = some u := by
        rw [hpend]; simp [lookupA]
      have he : eraseA c s.pendingT = rest := by
        rw [hpend]
        have h₁ : (decide (((c, u) : Nat × String).1 ≠ c)) = false := by simp
        show List.filter (fun q => decide (q.1 ≠ c)) ((c, u) :: rest) = rest
        rw [List.filter_cons, h₁]
        simp only [Bool.false_eq_true, if_false]
        exact eraseA_of_not_mem hcn.1
      have htf := texFinish_eq c ok s u hc
      rw [he] at htf
      by_cases hok : ok u = true
      · rw [if_pos hok] at htf
        set s₂ : RMState := trackResource u RType.texture
          { s with
            pendingT := rest
            nextHandle := s.nextHandle + 1
            textureCache := insertA u s.nextHandle s.textureCache } with hs₂
        have hpend₂ : s₂.pendingT = rest := rfl
        have htex₂ : s₂.textureCache = insertA u s.nextHandle s.textureCache := rfl
        have hf₂ : ∀ q ∈ rest, lookupA q.2 s₂.textureCache = none := by
          intro q hq
          have hqu : q.2 ≠ u := by
            intro hh
            exact hun.1 (hh ▸ List.mem_map.mpr ⟨q, hq, rfl⟩)
          rw [htex₂, lookupA_insertA_ne _ _ hqu]
          exact hf q (List.mem_cons_of_mem _ hq)
        obtain ⟨pres, fa⟩ := ih s₂ hcn.2 hun.2 hpend₂ hf₂
        have hunfold :
            preloadFinishes ok (((c, u) :: rest).map (fun q => Sum.inr q.1)) s
              = ((preloadFinishes ok (rest.map (fun q => Sum.inr q.1)) s₂).1,
                 some s.nextHandle ::
                   (preloadFinishes ok (rest.map (fun q => Sum.inr q.1)) s₂).2) := by
          simp only [List.map_cons, preloadFinishes, htf]
        rw [hunfold]
        constructor
        · intro k hk
          simp only [List.map_cons, List.mem_cons, not_or] at hk
          rw [pres k hk.2, htex₂, lookupA_insertA_ne _ _ hk.1]
        · refine List.Forall₂.cons ⟨by simp [hok], ?_⟩ fa
          intro h hh
          injection hh with hh
          subst hh
          have hu₂ : u ∉ rest.map Prod.snd := hun.1
          rw [pres u hu₂, htex₂, lookupA_insertA_self]
      · have hok' : ok u = false := by
          cases hcase : ok u with
          | true => exact absurd hcase hok
          | false => rfl
        rw [hok', if_neg (by simp)] at htf
        set s₀ : RMState := { s with pendingT := rest } with hs₀
        have hpend₀ : s₀.pendingT = rest := rfl
        have hf₀ : ∀ q ∈ rest, lookupA q.2 s₀.textureCache = none :=
          fun q hq => hf q (List.mem_cons_of_mem _ hq)
        obtain ⟨pres, fa⟩ := ih s₀ hcn.2 hun.2 hpend₀ hf₀
        have hunfold :
            preloadFinishes ok (((c, u) :: rest).map (fun q => Sum.inr q.1)) s
              = ((preloadFinishes ok (rest.map (fun q => Sum.inr q.1)) s₀).1,
                 none ::
                   (preloadFinishes ok (rest.map (fun q => Sum.inr q.1)) s₀).2) := by
          simp only [List.map_cons, preloadFinishes, htf]
        rw [hunfold]
        constructor
        · intro k hk
          simp only [List.map_cons, List.mem_cons, not_or] at hk
          exact pres k hk.2
        · exact List.Forall₂.cons ⟨by simp [hok'], fun h hh => by simp at hh⟩ fa

theorem texFinish_none (c : Nat) (ok : String → Bool) (s : RMState)
    (hp : lookupA c s.pendingT = none) : texFinish c ok s = (s, none) := by
  simp [texFinish, hp]

theorem modelFinish_none (c : Nat) (ok : String → Bool) (s : RMState)
    (hp : lookupA c s.pendingM = none) : modelFinish c ok s = (s, none) := by
  simp [modelFinish, hp]

/-- `referenceCount ≥ 1` for every tracked entry: the candidate
invariant of claim C10. -/
def RefInv (s : RMState) : Prop :=
  ∀ p ∈ s.usageTracker, 1 ≤ p.2.referenceCount

theorem refInv_trackResource (key : String) (t : RType) (s : RMState)
    (h : RefInv s) : RefInv (trackResource key t s) := by
  intro p hp
  rcases mem_insertA hp with h₁ | h₁
  · subst h₁; exact Nat.le_refl 1
  · exact h p h₁

theorem refInv_updateUsage (key : String) (t : RType) (s : RMState)
    (h : RefInv s) : RefInv (updateUsage key t s) := by
  unfold updateUsage
  cases hc : lookupA key s.usageTracker with
  | none => exact refInv_trackResource key t s h
  | some u =>
      intro p hp
      rcases mem_insertA hp with h₁ | h₁
      · subst h₁; exact Nat.succ_le_succ (Nat.zero_le _)
      · exact h p h₁

theorem refInv_releaseResource (key : String) (s : RMState)
    (h : RefInv s) : RefInv (releaseResource key s) := by
  intro p hp
  exact h p (mem_of_mem_eraseA hp)

theorem refInv_sweepRemove (l : List String) :
    ∀ (s : RMState), RefInv s → RefInv (sweepRemove l s) := by
  induction l with
  | nil => intro s h; exact h
  | cons k l ih =>
      intro s h
      rw [sweepRemove_cons]
      exact ih _ (refInv_releaseResource k s h)

theorem refInv_texFinish (c : Nat) (ok : String → Bool) (s : RMState)
    (h : RefInv s) : RefInv (texFinish c ok s).1 := by
  cases hp : lookupA c s.pendingT with
  | none => rw [texFinish_none c ok s hp]; exact h
  | some k =>
      rw [texFinish_eq c ok s k hp]
      by_cases hok : ok k = true
      · rw [if_pos hok]
        exact refInv_trackResource _ _ _ h
      · rw [if_neg hok]
        exact h

theorem refInv_modelFinish (c : Nat) (ok : String → Bool) (s : RMState)
    (h : RefInv s) : RefInv (modelFinish c ok s).1 := by
  cases hp : lookupA c s.pendingM with
  | none => rw [modelFinish_none c ok s hp]; exact h
  | some u =>
      rw [modelFinish_eq c ok s u hp]
      by_cases hok : ok u = true
      · rw [if_pos hok]
        exact refInv_trackResource _ _ _ h
      · rw [if_neg hok]
        exact h

theorem refInv_step (ok : String → Bool) (op : Op) (s : RMState)
    (h : RefInv s) : RefInv (op.step ok s) := by
  cases op with
  | texBeginOp c k =>
      simp only [Op.step]
      cases hc : lookupA k s.textureCache with
      | some hdl =>
          rw [texBegin_hit c k s hdl hc]
          exact refInv_updateUsage _ _ _ h
      | none =>
          rw [texBegin_miss c k s hc]
          exact h
  | texFinishOp c => exact refInv_texFinish c ok s h
  | modelBeginOp c u =>
      simp only [Op.step]
      cases hc : lookupA u s.modelCache with
      | some hdl =>
          rw [modelBegin_hit c u s hdl hc]
          exact refInv_updateUsage _ _ _ h
      | none =>
          rw [modelBegin_miss c u s hc]
          exact h
  | modelFinishOp c => exact refInv_modelFinish c ok s h
  | releaseOp k => exact refInv_releaseResource k s h
  | cleanupOp => exact refInv_sweepRemove _ s h
  | clearAllOp => intro p hp; simp [Op.step, clearAll] at hp
  | tick dt => exact h

theorem reachable_refInv (ok : String → Bool) (s : RMState)
    (hr : Reachable ok s) : RefInv s := by
  induction hr with
  | init => intro p hp; simp [RMState.init] at hp
  | step op hr ih => exact refInv_step ok op _ ih

theorem staleKeys_eq_nil (s : RMState) (h : RefInv s) :
    staleKeys s = [] := by
  unfold staleKeys
  rw [List.filter_eq_nil_iff.mpr ?_]
  · rfl
  · intro p hp
    have h₁ := h p hp
    simp only [isStale, Bool.and_eq_true, decide_eq_true_eq, not_and]
    intro _
    omega

theorem cleanup_eq_self_of_refInv (s : RMState) (h : RefInv s) :
    cleanupUnusedResources s = s := by
  unfold cleanupUnusedResources
  rw [staleKeys_eq_nil s h, sweepRemove_nil]

/-- A decode oracle under which every load succeeds. -/
def alwaysOk : String → Bool := fun _ => true

/-- The state after the synchronous prefix of one `getTexture` call,
return value dropped. -/
def texBeginState (caller : Nat) (key : String) (s : RMState) : RMState :=
  match texBegin caller key s with
  | Sum.inl (s₁, _) => s₁
  | Sum.inr s₁ => s₁

/-- Two callers enter `getTexture("rock.jpg")` before either decode
resolves (neither finds the key cached, both start a load). -/
def c1AfterBegins : RMState :=
  texBeginState 1 "rock.jpg" (texBeginState 0 "rock.jpg" RMState.init)

/-- The load of the first caller then resolves. -/
def c1First : RMState × Option Handle := texFinish 0 alwaysOk c1AfterBegins

/-- Then the load of the second caller resolves. -/
def c1Second : RMState × Option Handle := texFinish 1 alwaysOk c1First.1

/-- C1: the claim says that when N callers request an uncached key
concurrently before the first decode resolves, the decode runs exactly
once, all callers receive the same handle, and `refCount = N`.  The
code caches a texture only after its decode resolves, so with two
concurrent callers (N = 2): the decode for `"rock.jpg"` is invoked
twice, the callers receive two distinct texture objects (handles 0 and
1), and the tracked `referenceCount` is 1, because each completion
runs `trackResource`, which resets the record to `referenceCount = 1`. -/
theorem c1_concurrent_acquire_double_decode :
    c1Second.1.decodeLog = ["rock.jpg", "rock.jpg"] ∧
    c1First.2 = some 0 ∧
    c1Second.2 = some 1 ∧
    c1First.2 ≠ c1Second.2 ∧
    (lookupA "rock.jpg" c1Second.1.usageTracker).map
      ResourceUsage.referenceCount = some 1 := by
  refine ⟨rfl, rfl, rfl, ?_, rfl⟩
  decide

/-- A one-entry store: key `"k"` holds texture handle 7 and is tracked
with `referenceCount = 2`. -/
def c2State : RMState :=
  ⟨[("k", 7)], [], [("k", ⟨100, 2, RType.texture⟩)], [], [], 8, [], [], 100⟩

/-- C2 counterexample: the claim says `releaseResource` decrements
`refCount` by 1 (here from 2 to 1), keeps the entry and its handle
cached, and disposes nothing.  On the code, releasing `"k"` disposes
handle 7 and deletes the entry from the texture cache and the usage
tracker outright. -/
theorem c2_counterexample :
    (releaseResource "k" c2State).disposed = [7] ∧
    lookupA "k" (releaseResource "k" c2State).textureCache = none ∧
    lookupA "k" (releaseResource "k" c2State).usageTracker = none ∧
    lookupA "k" (releaseResource "k" c2State).usageTracker ≠
      some ⟨100, 1, RType.texture⟩ := by
  refine ⟨rfl, rfl, rfl, ?_⟩
  decide

/-- C2 (amended): for every key, `releaseResource` deletes the entry
of that key from the texture cache, the model cache and the usage
tracker (rather than decrementing `refCount`), disposes the texture
handle exactly when the key held one, and leaves the entries of every
other key unchanged; eviction is immediate, not deferred to the
Reaper. -/
theorem c2_release_removes_entry (s : RMState) (k k' : String)
    (h : k' ≠ k) :
    lookupA k (releaseResource k s).textureCache = none ∧
    lookupA k (releaseResource k s).modelCache = none ∧
    lookupA k (releaseResource k s).usageTracker = none ∧
    (∀ hdl, lookupA k s.textureCache = some hdl →
      (releaseResource k s).disposed = s.disposed ++ [hdl]) ∧
    (lookupA k s.textureCache = none →
      (releaseResource k s).disposed = s.disposed) ∧
    lookupA k' (releaseResource k s).textureCache =
      lookupA k' s.textureCache ∧
    lookupA k' (releaseResource k s).modelCache =
      lookupA k' s.modelCache ∧
    lookupA k' (releaseResource k s).usageTracker =
      lookupA k' s.usageTracker := by
  refine ⟨?_, ?_, ?_, ?_, ?_, ?_, ?_, ?_⟩
  · exact lookupA_eraseA_self k s.textureCache
  · exact lookupA_eraseA_self k s.modelCache
  · exact lookupA_eraseA_self k s.usageTracker
  · intro hdl hh; simp [releaseResource, hh]
  · intro hh; simp [releaseResource, hh]
  · exact lookupA_eraseA_ne s.textureCache h
  · exact lookupA_eraseA_ne s.modelCache h
  · exact lookupA_eraseA_ne s.usageTracker h

/-- A two-entry store for exercising `releaseResource` on `"k"` while
`"o"` stays untouched. -/
def c2TwoState : RMState :=
  ⟨[("k", 7), ("o", 9)], [],
   [("k", ⟨100, 2, RType.texture⟩), ("o", ⟨50, 1, RType.texture⟩)],
   [], [], 10, [], [], 100⟩

/-- Witness for `c2_release_removes_entry` at a concrete store. -/
theorem c2_release_removes_entry_witness :
    lookupA "k" (releaseResource "k" c2TwoState).usageTracker = none ∧
    (releaseResource "k" c2TwoState).disposed =
      c2TwoState.disposed ++ [7] ∧
    lookupA "o" (releaseResource "k" c2TwoState).usageTracker =
      lookupA "o" c2TwoState.usageTracker :=
  ⟨(c2_release_removes_entry c2TwoState "k" "o" (by decide)).2.2.1,
   (c2_release_removes_entry c2TwoState "k" "o" (by decide)).2.2.2.1 7 rfl,
   (c2_release_removes_entry c2TwoState "k" "o" (by decide)).2.2.2.2.2.2.2⟩

/-- Here `clearAll` is called while the decode of `"m"` by caller 0 is still in
flight. -/
def c3AfterClear : RMState := clearAll (texBeginState 0 "m" RMState.init)

/-- The in-flight decode then resolves. -/
def c3Resurrected : RMState × Option Handle := texFinish 0 alwaysOk c3AfterClear

/-- C3 counterexample: the claim says the result of a decode in flight
at `clearAll` time is disposed on arrival and not installed, so that a
later request starts a brand-new decode.  On the code, the completion
installs the texture into the cleared cache (resurrection), disposes
nothing, and a subsequent `getTexture("m")` is a cache hit that
returns the resurrected handle without starting a new decode (the
decode log still holds exactly one entry). -/
theorem c3_counterexample :
    lookupA "m" c3Resurrected.1.textureCache = some 0 ∧
    c3Resurrected.1.disposed = [] ∧
    c3Resurrected.1.decodeLog = ["m"] ∧
    texBegin 1 "m" c3Resurrected.1 =
      Sum.inl (updateUsage "m" RType.texture c3Resurrected.1, some 0) := by
  refine ⟨rfl, rfl, rfl, ?_⟩
  exact texBegin_hit 1 "m" c3Resurrected.1 0 rfl

/-- C3 (amended): a decode in flight when `clearAll()` runs is NOT
discarded: when it resolves, its result is installed in the texture
cache and tracked with `referenceCount = 1` (the entry is
resurrected), nothing is disposed on arrival, and a subsequent request
for the same key is a cache hit on the resurrected handle rather than
a fresh decode. -/
theorem c3_clearAll_resurrection (s : RMState) (c c' : Nat) (k : String)
    (ok : String → Bool) (hp : lookupA c s.pendingT = some k)
    (hok : ok k = true) :
    (texFinish c ok (clearAll s)).2 = some s.nextHandle ∧
    lookupA k (texFinish c ok (clearAll s)).1.textureCache =
      some s.nextHandle ∧
    (texFinish c ok (clearAll s)).1.disposed = (clearAll s).disposed ∧
    lookupA k (texFinish c ok (clearAll s)).1.usageTracker =
      some ⟨s.now, 1, RType.texture⟩ ∧
    texBegin c' k (texFinish c ok (clearAll s)).1 =
      Sum.inl (updateUsage k RType.texture (texFinish c ok (clearAll s)).1,
        some s.nextHandle) := by
  have hp' : lookupA c (clearAll s).pendingT = some k := hp
  have htf := texFinish_eq c ok (clearAll s) k hp'
  rw [if_pos hok] at htf
  rw [htf]
  have hc : lookupA k
      (trackResource k RType.texture
        { clearAll s with
          pendingT := eraseA c (clearAll s).pendingT
          nextHandle := (clearAll s).nextHandle + 1
          textureCache :=
            insertA k (clearAll s).nextHandle
              (clearAll s).textureCache }).textureCache
      = some s.nextHandle :=
    lookupA_insertA_self k s.nextHandle []
  refine ⟨rfl, hc, rfl, ?_, ?_⟩
  · exact lookupA_insertA_self k (⟨s.now, 1, RType.texture⟩ : ResourceUsage) []
  · exact texBegin_hit c' k _ s.nextHandle hc

/-- A state with the decode of `"m"` by caller 0 in flight. -/
def c3Pend : RMState := texBeginState 0 "m" RMState.init

/-- Witness for `c3_clearAll_resurrection` on the concrete in-flight
state. -/
theorem c3_clearAll_resurrection_witness :
    (texFinish 0 alwaysOk (clearAll c3Pend)).2 = some 0 ∧
    lookupA "m" (texFinish 0 alwaysOk (clearAll c3Pend)).1.textureCache =
      some 0 ∧
    (texFinish 0 alwaysOk (clearAll c3Pend)).1.disposed =
      (clearAll c3Pend).disposed :=
  have h := c3_clearAll_resurrection c3Pend 0 1 "m" alwaysOk rfl rfl
  ⟨h.1, h.2.1, h.2.2.1⟩

/-- A store holding one cached texture (handle 7) and one cached model
(handle 5), both tracked. -/
def c4State : RMState :=
  ⟨[("t.jpg", 7)], [("m.glb", 5)],
   [("t.jpg", ⟨0, 1, RType.texture⟩), ("m.glb", ⟨0, 1, RType.model⟩)],
   [], [], 8, [], [], 0⟩

/-- C4 counterexample: the claim says every previously cached handle —
textures and models alike — has `dispose` invoked exactly once by
`clearAll`.  On the code, `clearAll` disposes only textures:
`modelCache.clear()` drops the model entries without any dispose call,
so the cached model handle 5 is disposed zero times, not once. -/
theorem c4_counterexample :
    (clearAll c4State).modelCache = [] ∧
    (clearAll c4State).disposed.count 7 = 1 ∧
    (clearAll c4State).disposed.count 5 = 0 := by
  refine ⟨rfl, ?_, ?_⟩ <;> decide

/-- C4 (amended): after `clearAll()` the store is empty (texture
cache, model cache and usage tracker all cleared); every previously
cached texture handle has `dispose` invoked exactly once, while model
handles are removed without `dispose` ever being invoked on them. -/
theorem c4_clearAll_disposes_textures_only (s : RMState) :
    (clearAll s).textureCache = [] ∧
    (clearAll s).modelCache = [] ∧
    (clearAll s).usageTracker = [] ∧
    (clearAll s).disposed = s.disposed ++ s.textureCache.map Prod.snd ∧
    (s.disposed = [] → (s.textureCache.map Prod.snd).Nodup →
      (∀ h ∈ s.textureCache.map Prod.snd,
        (clearAll s).disposed.count h = 1) ∧
      (∀ h, h ∉ s.textureCache.map Prod.snd →
        (clearAll s).disposed.count h = 0)) := by
  refine ⟨rfl, rfl, rfl, rfl, ?_⟩
  intro hd hn
  constructor
  · intro h hh
    show (s.disposed ++ s.textureCache.map Prod.snd).count h = 1
    rw [hd, List.nil_append]
    exact List.count_eq_one_of_mem hn hh
  · intro h hh
    show (s.disposed ++ s.textureCache.map Prod.snd).count h = 0
    rw [hd, List.nil_append]
    exact List.count_eq_zero_of_not_mem hh

/-- Witness for `c4_clearAll_disposes_textures_only` at the concrete
two-entry store. -/
theorem c4_clearAll_disposes_textures_only_witness :
    (clearAll c4State).textureCache = [] ∧
    (clearAll c4State).usageTracker = [] ∧
    (clearAll c4State).disposed.count 7 = 1 :=
  have h := c4_clearAll_disposes_textures_only c4State
  ⟨h.1, h.2.2.1,
   (h.2.2.2.2 rfl (by decide)).1 7 (by decide)⟩

/-- C5: for every list of keys given to `preloadTextures`, each
element has an independent outcome: the batch always yields one result
per url in position (`getTexture` catches its own decode failure and
resolves `null`, so `Promise.all` never rejects), a failing decode
leaves `none` in its slot without affecting siblings (the slot
succeeds exactly when its own url decodes), and every successfully
decoded url is installed in the texture cache with the very handle
returned in its position. -/
theorem c5_preload_item_independence (ok : String → Bool)
    (urls : List String) (s : RMState) (hnd : urls.Nodup)
    (hpend : s.pendingT = [])
    (hf : ∀ u ∈ urls, lookupA u s.textureCache = none) :
    (preloadTextures ok urls s).2.length = urls.length ∧
    List.Forall₂
      (fun (u : String) (r : Option Handle) =>
        r.isSome = ok u ∧
        ∀ h, r = some h →
          lookupA u (preloadTextures ok urls s).1.textureCache = some h)
      urls (preloadTextures ok urls s).2 := by
  have hfe : ∀ p ∈ urls.enum, lookupA p.2 s.textureCache = none := by
    intro p hp
    apply hf
    have h₁ := List.mem_map_of_mem Prod.snd hp
    rwa [List.enum_map_snd] at h₁
  have hb := preloadBegins_fresh urls.enum s hfe
  set s₁ : RMState := { s with
      pendingT := s.pendingT ++ urls.enum
      decodeLog := s.decodeLog ++ urls.enum.map Prod.snd } with hs₁
  have hpt : preloadTextures ok urls s =
      preloadFinishes ok (urls.enum.map (fun q => Sum.inr q.1)) s₁ := by
    simp only [preloadTextures, hb]
  have hcn : (urls.enum.map Prod.fst).Nodup := List.nodup_enum_map_fst urls
  have hun : (urls.enum.map Prod.snd).Nodup := by
    rw [List.enum_map_snd]; exact hnd
  have hpend₁ : s₁.pendingT = urls.enum := by
    rw [hs₁]; simp [hpend]
  have hf₁ : ∀ p ∈ urls.enum, lookupA p.2 s₁.textureCache = none := hfe
  obtain ⟨pres, fa⟩ := preloadFinishes_spec ok urls.enum s₁ hcn hun hpend₁ hf₁
  rw [hpt]
  constructor
  · rw [← fa.length_eq, List.enum_length]
  · have fa₂ : List.Forall₂
        (fun (u : String) (r : Option Handle) =>
          r.isSome = ok u ∧
          ∀ h, r = some h →
            lookupA u (preloadFinishes ok
              (urls.enum.map (fun q => Sum.inr q.1)) s₁).1.textureCache
              = some h)
        (urls.enum.map Prod.snd)
        (preloadFinishes ok
          (urls.enum.map (fun q => Sum.inr q.1)) s₁).2 :=
      List.forall₂_map_left_iff.mpr fa
    rwa [List.enum_map_snd] at fa₂

/-- The decode oracle of scenario 4: every url succeeds except
`"missing.jpg"`. -/
def missingOk : String → Bool := fun u => decide (u ≠ "missing.jpg")

/-- Witness for `c5_preload_item_independence`: the scenario 4
batch of the spec. -/
theorem c5_preload_item_independence_witness :
    (preloadTextures missingOk ["a.jpg", "missing.jpg", "c.jpg"]
        RMState.init).2.length = 3 ∧
    List.Forall₂
      (fun (u : String) (r : Option Handle) =>
        r.isSome = missingOk u ∧
        ∀ h, r = some h →
          lookupA u (preloadTextures missingOk
            ["a.jpg", "missing.jpg", "c.jpg"] RMState.init).1.textureCache
            = some h)
      ["a.jpg", "missing.jpg", "c.jpg"]
      (preloadTextures missingOk ["a.jpg", "missing.jpg", "c.jpg"]
        RMState.init).2 :=
  c5_preload_item_independence missingOk
    ["a.jpg", "missing.jpg", "c.jpg"] RMState.init (by decide) rfl
    (fun u _ => rfl)

/-- A state with the decode of `"bad.jpg"` by caller 0 in flight and
nothing cached. -/
def c6Pend : RMState := texBeginState 0 "bad.jpg" RMState.init

/-- The oracle under which every decode fails. -/
def neverOk : String → Bool := fun _ => false

/-- C6: when a decode fails, the `catch` in `getTexture` returns
`null` and installs nothing: the texture cache, model cache, usage
tracker and dispose log are all untouched, so no entry exists for the
failed key; a subsequent `getTexture` for the same key misses the
cache and starts a brand-new decode (the failure is not cached as
permanent). -/
theorem c6_failed_decode_not_cached (s : RMState) (c c' : Nat)
    (k : String) (ok : String → Bool) (hp : lookupA c s.pendingT = some k)
    (hfail : ok k = false) (hmiss : lookupA k s.textureCache = none) :
    (texFinish c ok s).2 = none ∧
    (texFinish c ok s).1.textureCache = s.textureCache ∧
    (texFinish c ok s).1.modelCache = s.modelCache ∧
    (texFinish c ok s).1.usageTracker = s.usageTracker ∧
    (texFinish c ok s).1.disposed = s.disposed ∧
    texBegin c' k (texFinish c ok s).1 =
      Sum.inr { (texFinish c ok s).1 with
        pendingT := (texFinish c ok s).1.pendingT ++ [(c', k)]
        decodeLog := (texFinish c ok s).1.decodeLog ++ [k] } := by
  have htf : texFinish c ok s = ({ s with pendingT := eraseA c s.pendingT },
      none) := by
    rw [texFinish_eq c ok s k hp, hfail]
    simp
  rw [htf]
  exact ⟨rfl, rfl, rfl, rfl, rfl, texBegin_miss c' k _ hmiss⟩

/-- Witness for `c6_failed_decode_not_cached` on the concrete
in-flight state. -/
theorem c6_failed_decode_not_cached_witness :
    (texFinish 0 neverOk c6Pend).2 = none ∧
    (texFinish 0 neverOk c6Pend).1.textureCache = c6Pend.textureCache ∧
    (texFinish 0 neverOk c6Pend).1.usageTracker = c6Pend.usageTracker :=
  have h := c6_failed_decode_not_cached c6Pend 0 1 "bad.jpg" neverOk
    rfl rfl rfl
  ⟨h.1, h.2.1, h.2.2.2.1⟩

/-- C7 (amended): at sweep time, a tracked entry with
`referenceCount = 0` whose idle time `now - lastUsed` exceeds its
threshold of its kind (30000 ms for textures, 60000 ms otherwise) is
evicted — removed from the usage tracker and both caches — and its
handle is disposed when the entry held a cached texture; a model entry
is evicted without any dispose call (`releaseResource` only disposes
textures).  An entry accessed within the threshold survives the sweep
unchanged. -/
theorem c7_sweep_evicts_stale_spares_fresh (s : RMState) (k : String)
    (u : ResourceUsage) (hn : (s.usageTracker.map Prod.fst).Nodup)
    (ht : lookupA k s.usageTracker = some u) :
    ((u.referenceCount = 0 ∧
        thresholdFor u.type < s.now - u.lastUsed) →
      lookupA k (cleanupUnusedResources s).usageTracker = none ∧
      lookupA k (cleanupUnusedResources s).textureCache = none ∧
      lookupA k (cleanupUnusedResources s).modelCache = none ∧
      (∀ hdl, lookupA k s.textureCache = some hdl →
        hdl ∈ (cleanupUnusedResources s).disposed)) ∧
    (s.now - u.lastUsed ≤ thresholdFor u.type →
      lookupA k (cleanupUnusedResources s).usageTracker = some u ∧
      lookupA k (cleanupUnusedResources s).textureCache =
        lookupA k s.textureCache ∧
      lookupA k (cleanupUnusedResources s).modelCache =
        lookupA k s.modelCache) := by
  constructor
  · rintro ⟨h0, hidle⟩
    have hstale : isStale s.now u = true := by
      simp [isStale, h0, hidle]
    have hmem := mem_staleKeys ht hstale
    refine ⟨?_, ?_, ?_, ?_⟩
    · rw [cleanup_usageTracker_lookup, if_pos hmem]
    · rw [cleanup_textureCache_lookup, if_pos hmem]
    · rw [cleanup_modelCache_lookup, if_pos hmem]
    · intro hdl hh
      rw [cleanup_disposed s hn]
      exact List.mem_append_right _
        (List.mem_filterMap.mpr ⟨k, hmem, hh⟩)
  · intro hidle
    have hstale : isStale s.now u = false := by
      have hlt : ¬ thresholdFor u.type < s.now - u.lastUsed :=
        Nat.not_lt.mpr hidle
      simp [isStale, hlt]
    have hmem := not_mem_staleKeys hn ht hstale
    refine ⟨?_, ?_, ?_⟩
    · rw [cleanup_usageTracker_lookup, if_neg hmem]; exact ht
    · rw [cleanup_textureCache_lookup, if_neg hmem]
    · rw [cleanup_modelCache_lookup, if_neg hmem]

/-- A store holding an idle, unreferenced model entry: `refCount = 0`,
idle for 70000 ms (beyond the 60000 ms model threshold). -/
def c7State : RMState :=
  ⟨[], [("m.glb", 3)], [("m.glb", ⟨0, 0, RType.model⟩)],
   [], [], 4, [], [], 70000⟩

/-- C7 counterexample: the claim says the sweep "evicts and disposes"
every qualifying entry.  On the code, the qualifying model entry
`"m.glb"` is evicted (gone from the tracker and the model cache) but
`dispose` is never invoked: the dispose log stays empty, because
`releaseResource` only disposes texture handles. -/
theorem c7_counterexample :
    lookupA "m.glb" (cleanupUnusedResources c7State).usageTracker = none ∧
    lookupA "m.glb" (cleanupUnusedResources c7State).modelCache = none ∧
    (cleanupUnusedResources c7State).disposed = [] := by
  refine ⟨?_, ?_, ?_⟩ <;> decide

/-- A store holding a zero-reference texture entry last used 50000 ms
ago at clock 70000 (idle 20000 ms, inside the 30000 ms threshold). -/
def c7Fresh : RMState :=
  ⟨[("t.jpg", 2)], [], [("t.jpg", ⟨50000, 0, RType.texture⟩)],
   [], [], 3, [], [], 70000⟩

/-- Witness for `c7_sweep_evicts_stale_spares_fresh`: the stale model
entry is evicted and the recently used texture entry survives. -/
theorem c7_sweep_evicts_stale_spares_fresh_witness :
    (lookupA "m.glb" (cleanupUnusedResources c7State).usageTracker = none ∧
     lookupA "m.glb" (cleanupUnusedResources c7State).modelCache = none) ∧
    (lookupA "t.jpg" (cleanupUnusedResources c7Fresh).usageTracker =
       some ⟨50000, 0, RType.texture⟩ ∧
     lookupA "t.jpg" (cleanupUnusedResources c7Fresh).textureCache =
       lookupA "t.jpg" c7Fresh.textureCache) :=
  have h₁ := (c7_sweep_evicts_stale_spares_fresh c7State "m.glb"
    ⟨0, 0, RType.model⟩ (by decide) rfl).1 (by decide)
  have h₂ := (c7_sweep_evicts_stale_spares_fresh c7Fresh "t.jpg"
    ⟨50000, 0, RType.texture⟩ (by decide) rfl).2 (by decide)
  ⟨⟨h₁.1, h₁.2.2.1⟩, ⟨h₂.1, h₂.2.1⟩⟩

/-- C8: an entry whose `referenceCount` is strictly positive at sweep
time is never evicted or disposed by that sweep, however long it has
been idle: its tracker record and its cached entries are untouched,
and no new dispose of its texture handle is recorded (given the cache
holds pairwise distinct handles, as every handle is allocated
fresh). -/
theorem c8_referenced_entry_never_swept (s : RMState) (k : String)
    (u : ResourceUsage) (hn : (s.usageTracker.map Prod.fst).Nodup)
    (ht : lookupA k s.usageTracker = some u)
    (hpos : 0 < u.referenceCount) :
    lookupA k (cleanupUnusedResources s).usageTracker = some u ∧
    lookupA k (cleanupUnusedResources s).textureCache =
      lookupA k s.textureCache ∧
    lookupA k (cleanupUnusedResources s).modelCache =
      lookupA k s.modelCache ∧
    (∀ hdl, lookupA k s.textureCache = some hdl →
      (s.textureCache.map Prod.snd).Nodup →
      (cleanupUnusedResources s).disposed.count hdl =
        s.disposed.count hdl) := by
  have hstale : isStale s.now u = false := by
    have h0 : ¬ u.referenceCount = 0 := by omega
    simp [isStale, h0]
  have hmem := not_mem_staleKeys hn ht hstale
  refine ⟨?_, ?_, ?_, ?_⟩
  · rw [cleanup_usageTracker_lookup, if_neg hmem]; exact ht
  · rw [cleanup_textureCache_lookup, if_neg hmem]
  · rw [cleanup_modelCache_lookup, if_neg hmem]
  · intro hdl hh hhn
    rw [cleanup_disposed s hn, List.count_append]
    have hz : ((staleKeys s).filterMap
        (fun q => lookupA q s.textureCache)).count hdl = 0 := by
      apply List.count_eq_zero_of_not_mem
      intro hmem₂
      obtain ⟨k₁, hk₁, hl⟩ := List.mem_filterMap.mp hmem₂
      have hkk : k₁ = k := by
        have hm₁ : (k₁, hdl) ∈ s.textureCache := lookupA_mem hl
        have hm₂ : (k, hdl) ∈ s.textureCache := lookupA_mem hh
        exact congrArg Prod.fst
          (List.inj_on_of_nodup_map hhn hm₁ hm₂ rfl)
      rw [hkk] at hk₁
      exact hmem hk₁
    rw [hz, Nat.add_zero]

/-- A store with a texture entry idle for 1000000 ms (far beyond the
threshold) but still referenced (`refCount = 3`). -/
def c8State : RMState :=
  ⟨[("t.jpg", 2)], [], [("t.jpg", ⟨0, 3, RType.texture⟩)],
   [], [], 3, [], [], 1000000⟩

/-- Witness for `c8_referenced_entry_never_swept` on the concrete
long-idle but referenced entry. -/
theorem c8_referenced_entry_never_swept_witness :
    lookupA "t.jpg" (cleanupUnusedResources c8State).usageTracker =
      some ⟨0, 3, RType.texture⟩ ∧
    lookupA "t.jpg" (cleanupUnusedResources c8State).textureCache =
      lookupA "t.jpg" c8State.textureCache ∧
    (cleanupUnusedResources c8State).disposed.count 2 =
      c8State.disposed.count 2 :=
  have h := c8_referenced_entry_never_swept c8State "t.jpg"
    ⟨0, 3, RType.texture⟩ (by decide) rfl (by decide)
  ⟨h.1, h.2.1, h.2.2.2 2 rfl (by decide)⟩

/-- C9 (amended): for a fresh LOD key, `createLOD` never fails: it
always installs and returns a LOD object under the key
`modelUrl-distances`.  When the base model load fails (`getModel`
resolves `null`), the error is swallowed — the cached LOD object
simply keeps zero levels and no model is cached.  When the base model
loads, the `.then` callback adds the full model at distance 0 plus one
simplified clone per requested distance, i.e. `distances.length + 1`
levels, and the base model is cached (participating in the shared
refcount/eviction bookkeeping). -/
theorem c9_createLOD_never_fails (caller : Nat) (modelUrl : String)
    (distances : List Nat) (ok : String → Bool) (s : RMState)
    (ls : LODState)
    (hlod : lookupA (lodKey modelUrl distances) ls.lods = none)
    (hmiss : lookupA modelUrl s.modelCache = none)
    (hpend : s.pendingM = []) :
    (createLOD caller modelUrl distances ok s ls).2.2 =
      lodKey modelUrl distances ∧
    (ok modelUrl = false →
      lookupA (lodKey modelUrl distances)
          (createLOD caller modelUrl distances ok s ls).2.1.lods
        = some [] ∧
      lookupA modelUrl
          (createLOD caller modelUrl distances ok s ls).1.modelCache
        = none) ∧
    (ok modelUrl = true →
      lookupA (lodKey modelUrl distances)
          (createLOD caller modelUrl distances ok s ls).2.1.lods
        = some (0 :: distances) ∧
      (0 :: distances).length = distances.length + 1 ∧
      lookupA modelUrl
          (createLOD caller modelUrl distances ok s ls).1.modelCache
        = some s.nextHandle) := by
  have hbm := modelBegin_miss caller modelUrl s hmiss
  set sIn : RMState := { s with
      pendingM := s.pendingM ++ [(caller, modelUrl)]
      decodeLog := s.decodeLog ++ [modelUrl] } with hsIn
  have hp₁ : lookupA caller sIn.pendingM = some modelUrl := by
    rw [hsIn]
    show lookupA caller (s.pendingM ++ [(caller, modelUrl)]) = some modelUrl
    rw [hpend, List.nil_append]
    simp [lookupA]
  have hgm : getModel caller modelUrl ok s = modelFinish caller ok sIn := by
    simp only [getModel, hbm]
  have hmfEq := modelFinish_eq caller ok sIn modelUrl hp₁
  by_cases hok : ok modelUrl = true
  · rw [if_pos hok] at hmfEq
    have hcl : createLOD caller modelUrl distances ok s ls =
        (trackResource modelUrl RType.model
           { sIn with
             pendingM := eraseA caller sIn.pendingM
             nextHandle := sIn.nextHandle + 1
             modelCache := insertA modelUrl sIn.nextHandle sIn.modelCache },
         ⟨insertA (lodKey modelUrl distances) (0 :: distances)
            (insertA (lodKey modelUrl distances) [] ls.lods)⟩,
         lodKey modelUrl distances) := by
      simp only [createLOD, hlod, hgm, hmfEq, lodOnModelLoaded]
    rw [hcl]
    refine ⟨rfl, ?_, ?_⟩
    · intro hfail
      rw [hfail] at hok
      exact Bool.noConfusion hok
    · intro _
      refine ⟨?_, by simp, ?_⟩
      · exact lookupA_insertA_self (lodKey modelUrl distances)
          (0 :: distances) _
      · exact lookupA_insertA_self modelUrl s.nextHandle s.modelCache
  · rw [if_neg hok] at hmfEq
    have hcl : createLOD caller modelUrl distances ok s ls =
        ({ sIn with pendingM := eraseA caller sIn.pendingM },
         ⟨insertA (lodKey modelUrl distances) [] ls.lods⟩,
         lodKey modelUrl distances) := by
      simp only [createLOD, hlod, hgm, hmfEq, lodOnModelLoaded]
    rw [hcl]
    refine ⟨rfl, ?_, ?_⟩
    · intro _
      exact ⟨lookupA_insertA_self (lodKey modelUrl distances) [] ls.lods,
        hmiss⟩
    · intro htrue
      exact absurd htrue hok

/-- The LOD build for `"bad.glb"` whose base-model load fails. -/
def c9Fail : RMState × LODState × String :=
  createLOD 0 "bad.glb" [10, 20, 50] neverOk RMState.init LODState.init

/-- C9 counterexample: the claim says that when the base model fails
to load, `createLOD` fails with the same error and produces no partial
LOD object.  On the code, the `catch` in `getModel` swallows the error, the
`model?.scene` guard in the `.then` callback silently skips, and
`createLOD` still returns a LOD handle and leaves a zero-level LOD
object cached under the key — a partial LOD object, not a failure. -/
theorem c9_counterexample :
    c9Fail.2.2 = lodKey "bad.glb" [10, 20, 50] ∧
    lookupA (lodKey "bad.glb" [10, 20, 50]) c9Fail.2.1.lods = some [] ∧
    c9Fail.1.modelCache = [] ∧
    c9Fail.2.1.lods ≠ [] := by
  refine ⟨rfl, ?_, rfl, ?_⟩ <;> decide

/-- Witness for `c9_createLOD_never_fails`: a successful build of
`"good.glb"` with the default distances gets 4 levels. -/
theorem c9_createLOD_never_fails_witness :
    (createLOD 0 "good.glb" [10, 20, 50] alwaysOk RMState.init
        LODState.init).2.2 = lodKey "good.glb" [10, 20, 50] ∧
    lookupA (lodKey "good.glb" [10, 20, 50])
        (createLOD 0 "good.glb" [10, 20, 50] alwaysOk RMState.init
          LODState.init).2.1.lods = some [0, 10, 20, 50] ∧
    lookupA "good.glb"
        (createLOD 0 "good.glb" [10, 20, 50] alwaysOk RMState.init
          LODState.init).1.modelCache = some 0 :=
  have h := c9_createLOD_never_fails 0 "good.glb" [10, 20, 50] alwaysOk
    RMState.init LODState.init rfl rfl rfl
  ⟨h.1, (h.2.2 rfl).1, (h.2.2 rfl).2.2⟩

/-- C10: no operation of the `ResourceManager` ever decreases a
`referenceCount` of a tracked entry (`trackResource` installs it at 1,
`updateUsage` only increments, `releaseResource` deletes the whole
record), so in every reachable state every tracked entry has
`referenceCount ≥ 1`; consequently the Reaper eviction condition
`referenceCount === 0` is never met and `cleanupUnusedResources` is
the identity on every reachable state — idle-based eviction never
removes anything. -/
theorem c10_refcount_floor_reaper_dead (ok : String → Bool)
    (s : RMState) (hr : Reachable ok s) :
    (∀ p ∈ s.usageTracker, 1 ≤ p.2.referenceCount) ∧
    cleanupUnusedResources s = s :=
  have hinv : RefInv s := reachable_refInv ok s hr
  ⟨hinv, cleanup_eq_self_of_refInv s hinv⟩

/-- A concrete reachable state: one texture loaded, then 100000 ms of
idleness — far beyond every threshold, yet never cleaned. -/
def c10Trace : RMState :=
  Op.step alwaysOk (Op.tick 100000)
    (Op.step alwaysOk (Op.texFinishOp 0)
      (Op.step alwaysOk (Op.texBeginOp 0 "a.jpg") RMState.init))

/-- Witness for `c10_refcount_floor_reaper_dead` on the concrete
trace. -/
theorem c10_refcount_floor_reaper_dead_witness :
    (∀ p ∈ c10Trace.usageTracker, 1 ≤ p.2.referenceCount) ∧
    cleanupUnusedResources c10Trace = c10Trace :=
  c10_refcount_floor_reaper_dead alwaysOk c10Trace
    (Reachable.step (Op.tick 100000)
      (Reachable.step (Op.texFinishOp 0)
        (Reachable.step (Op.texBeginOp 0 "a.jpg") Reachable.init)))
